import Mathlib

/-!
Verification of the Reddit persona generator
(src/reddit_persona_generator.py) against its specification.

Python strings are modelled as lists of characters (`PyStr`); Python ints
as `Int`/`Nat`; Python floats that only ever hold exact values (timestamps,
ratios) as `Rat`; fallible code as `Except`.  External collaborators (the
NLTK tokenizer, the Reddit and Gemini clients) are modelled as function
parameters; the Python standard-library helpers actually exercised by the
code (`str.strip`, `str.split`, `str.replace`, `in`, `urllib.parse.urlparse`)
are modelled explicitly below.
-/

deriving instance DecidableEq for Except

/-- Python `str` modelled as a list of characters. -/
abbrev PyStr := List Char

/-- Shorthand turning a Lean string literal into a `PyStr`. -/
def pys (s : String) : PyStr := s.toList

/-- Python `str.strip()`: remove leading and trailing whitespace. -/
def pyStrip (s : PyStr) : PyStr :=
  ((s.dropWhile Char.isWhitespace).reverse.dropWhile Char.isWhitespace).reverse

/-- Python `s.startswith(pre)`. -/
def startswith : PyStr → PyStr → Bool
  | [], _ => true
  | _ :: _, [] => false
  | c :: p, d :: s => c = d && startswith p s

/-- Python `needle in hay` (substring containment). -/
def pyIn (needle : PyStr) : PyStr → Bool
  | [] => startswith needle []
  | c :: t => startswith needle (c :: t) || pyIn needle t

/-- Python `s.split(sep)` for a one-character separator.
Always returns a non-empty list of groups, e.g. `''.split('/') == ['']`. -/
def pySplit (sep : Char) : PyStr → List PyStr
  | [] => [[]]
  | c :: rest =>
    if c = sep then [] :: pySplit sep rest
    else (c :: (pySplit sep rest).headD []) :: (pySplit sep rest).tail

/-- Python `lst[-1]` on the (always non-empty) result of `split`. -/
def pyLastStr (l : List PyStr) : PyStr := l.getLastD []

/-- Remove all trailing occurrences of `c`. -/
def stripTrail (c : Char) (s : PyStr) : PyStr :=
  (s.reverse.dropWhile (· = c)).reverse

/-- Python `s.strip(c)` for a one-character argument: remove all leading
and trailing occurrences of `c`. -/
def pyStripChar (c : Char) (s : PyStr) : PyStr :=
  stripTrail c (s.dropWhile (· = c))

/-- Python `s.replace(old, new)`, replacing every non-overlapping
occurrence of `old` left to right; structured with a fuel argument (an
upper bound on the remaining length) so that it is structurally
recursive.  `pyReplace` below instantiates the fuel with the length of
the input, which is always sufficient. -/
def pyReplaceFuel (old new : PyStr) : Nat → PyStr → PyStr
  | 0, s => s
  | _ + 1, [] => []
  | fuel + 1, c :: t =>
    if old ≠ [] ∧ startswith old (c :: t) then
      new ++ pyReplaceFuel old new fuel (t.drop (old.length - 1))
    else
      c :: pyReplaceFuel old new fuel t

/-- Python `s.replace(old, new)`. -/
def pyReplace (old new : PyStr) (s : PyStr) : PyStr :=
  pyReplaceFuel old new s.length s

/-- Characters allowed in a URL scheme by `urllib.parse` (`scheme_chars`). -/
def isSchemeChar (c : Char) : Bool := c.isAlphanum || c = '+' || c = '-' || c = '.'

/-- Split a list at the first occurrence of `c`: returns the part before
and the part after (the occurrence itself removed), or `none`. -/
def breakAtChar (c : Char) : PyStr → Option (PyStr × PyStr)
  | [] => none
  | d :: t => if d = c then some ([], t) else (breakAtChar c t).map (fun p => (d :: p.1, p.2))

/-- Models the scheme-removal step of `urllib.parse.urlsplit`: if the text
before the first `:` is a non-empty run of scheme characters starting with
an ASCII letter, it is removed together with the `:`. -/
def dropScheme (url : PyStr) : PyStr :=
  match breakAtChar ':' url with
  | some (pre, rest) =>
    if pre ≠ [] ∧ (pre.headD ' ').isAlpha ∧ pre.all isSchemeChar then rest else url
  | none => url

/-- Models the authority-removal step of `urllib.parse.urlsplit`: if the
remaining text starts with `//`, everything up to (excluding) the next
`/`, `?` or `#` is removed. -/
def dropNetloc (url : PyStr) : PyStr :=
  if startswith (pys "//") url then
    (url.drop 2).dropWhile (fun c => c ≠ '/' && c ≠ '?' && c ≠ '#')
  else url

/-- Everything before the first occurrence of `c` (the whole list if absent). -/
def takeUntilChar (c : Char) (s : PyStr) : PyStr := s.takeWhile (· ≠ c)

/-- Models the `path` component of `urllib.parse.urlparse(url)` (external
Python stdlib): the scheme and the authority are removed, and the fragment
(after `#`) and query (after `?`) are cut off.  The params split on `;`
performed by `urlparse` (but not `urlsplit`) is omitted; no input reasoned
about below contains `;`. -/
def urlparsePath (url : PyStr) : PyStr :=
  takeUntilChar '?' (takeUntilChar '#' (dropNetloc (dropScheme url)))

/-- The host marker `'reddit.com'` used by `extract_username_from_url`. -/
def redditHost : PyStr := ['r', 'e', 'd', 'd', 'i', 't', '.', 'c', 'o', 'm']

/-- The path parts computed in the `'reddit.com' in url` branch of
`extract_username_from_url`:
`parsed.path.strip('/').split('/')` (lines 98-99). -/
def pathParts (url : PyStr) : List PyStr :=
  pySplit '/' (pyStripChar '/' (urlparsePath url))

/-- Embedding of `RedditPersonaGenerator.extract_username_from_url`
(src/reddit_persona_generator.py lines 88-109) applied to the already
stripped input.  `.error` models the `ValueError("Invalid Reddit profile
URL format")` raise; the surrounding `except` clause re-raises, so errors
propagate unchanged. -/
def extractCore (url : PyStr) : Except PyStr PyStr :=
  if startswith ['u', '/'] url || startswith ['/', 'u', '/'] url then
    .ok (pyLastStr (pySplit '/' url))
  else if startswith (redditHost ++ ['/', 'u', '/']) url
      || startswith (redditHost ++ ['/', 'u', 's', 'e', 'r', '/']) url then
    .ok (pyLastStr (pySplit '/' url))
  else if pyIn redditHost url then
    if 2 ≤ (pathParts url).length ∧
        ((pathParts url).headD [] = pys "user" ∨ (pathParts url).headD [] = pys "u") then
      .ok ((pathParts url).getD 1 [])
    else
      .error (pys "Invalid Reddit profile URL format")
  else
    .ok (pyReplace ['/', 'u', '/'] [] (pyReplace ['u', '/'] [] url))

/-- Embedding of `RedditPersonaGenerator.extract_username_from_url`
(lines 88-109): the input is stripped first (`url = url.strip()`, line 92),
then dispatched on its shape. -/
def extract_username_from_url (url : PyStr) : Except PyStr PyStr :=
  extractCore (pyStrip url)

/-- A collected post, mirroring the `post_data` dict built in
`collect_user_data` (lines 142-155).  Timestamps and the upvote ratio are
Python floats holding exact values, modelled as rationals. -/
structure Post where
  id : PyStr
  title : PyStr
  selftext : PyStr
  subreddit : PyStr
  score : Int
  upvote_r : Rat
  num_comments : Int
  created_utc : Rat
  url : PyStr
  permalink : PyStr
  is_self : Bool
deriving DecidableEq

/-- A collected comment, mirroring the `comment_data` dict built in
`collect_user_data` (lines 170-179). -/
structure Comment where
  id : PyStr
  body : PyStr
  subreddit : PyStr
  score : Int
  created_utc : Rat
  permalink : PyStr
  parent_id : PyStr
deriving DecidableEq

/-- One citation record as appended by `_generate_citations`
(lines 417-422 and 426-431). -/
structure Citation where
  type : PyStr
  content : PyStr
  url : PyStr
  score : Int
deriving DecidableEq

/-- The citations dict initialised at lines 406-412: five fixed category
lists. -/
structure Citations where
  personality_traits : List Citation
  interests : List Citation
  communication_style : List Citation
  behavior_patterns : List Citation
  values_beliefs : List Citation
deriving DecidableEq

/-- The record appended for a post with score above 10 (lines 417-422):
truncated title plus ellipsis, fixed host plus stored permalink, original
score. -/
def postCitation (p : Post) : Citation :=
  { type := pys "post"
    content := p.title.take 100 ++ pys "..."
    url := pys "https://reddit.com" ++ p.permalink
    score := p.score }

/-- The record appended for a comment with score above 5 (lines 426-431). -/
def commentCitation (m : Comment) : Citation :=
  { type := pys "comment"
    content := m.body.take 100 ++ pys "..."
    url := pys "https://reddit.com" ++ m.permalink
    score := m.score }

/-- The body of the post loop of `_generate_citations` (lines 415-422). -/
def citePostStep (c : Citations) (p : Post) : Citations :=
  if 10 < p.score then { c with interests := c.interests ++ [postCitation p] } else c

/-- The body of the comment loop of `_generate_citations` (lines 424-431). -/
def citeCommentStep (c : Citations) (m : Comment) : Citations :=
  if 5 < m.score then
    { c with communication_style := c.communication_style ++ [commentCitation m] }
  else c

/-- Embedding of `RedditPersonaGenerator._generate_citations`
(lines 404-433): start from five empty category lists, then loop over the
collected posts and comments appending a record for each high-scoring
item. -/
def generate_citations (posts : List Post) (comments : List Comment) : Citations :=
  comments.foldl citeCommentStep (posts.foldl citePostStep ⟨[], [], [], [], []⟩)

/-- The result dict of `extract_topics_and_interests` (lines 232-236 /
line 239). -/
structure TopicsResult where
  top_words : List (PyStr × Nat)
  total_words : Nat
  unique_words : Nat
deriving DecidableEq

/-- Python `' '.join(texts)` (line 217). -/
def joinSpace : List PyStr → PyStr
  | [] => []
  | [t] => t
  | t :: u :: ts => t ++ ' ' :: joinSpace (u :: ts)

/-- Python `str.lower()`, modelled characterwise. -/
def pyLower (s : PyStr) : PyStr := s.map Char.toLower

/-- Python `str.isalnum()`: non-empty and all characters alphanumeric
(ASCII approximation of Python's Unicode notion; the difference does not
affect any property proved below). -/
def pyIsAlnum (s : PyStr) : Bool := !s.isEmpty && s.all Char.isAlphanum

/-- The frequency-dict loop of lines 225-227 (and 257-264): a Python dict
preserves first-insertion order, so it is modelled as an ordered
association list that appends unseen keys. -/
def bumpCount (freq : List (PyStr × Nat)) (w : PyStr) : List (PyStr × Nat) :=
  if freq.any (fun p => p.1 = w) then
    freq.map (fun p => if p.1 = w then (p.1, p.2 + 1) else p)
  else freq ++ [(w, 1)]

/-- Counting loop over a word list (lines 225-227). -/
def countFreq (ws : List PyStr) : List (PyStr × Nat) := ws.foldl bumpCount []

/-- Python `sorted(items, key=lambda x: x[1], reverse=True)` on count
pairs (lines 230 and 266).  The spec leaves the order among equal counts
unspecified, and no property below depends on it. -/
def sortByCountDesc (l : List (PyStr × Nat)) : List (PyStr × Nat) :=
  List.insertionSort (fun p q => q.2 ≤ p.2) l

/-- The `try` body of `extract_topics_and_interests` (lines 216-236).
`word_tokenize` is NLTK's tokenizer, an external library modelled as an
arbitrary, possibly failing function; `stop_words` is the NLTK English
stopword list, modelled as an arbitrary list.  Combines the texts,
lowercases, tokenizes, filters alphanumeric non-stopword tokens longer
than 3 characters, counts frequencies and keeps the top 20. -/
def topicsBody (word_tokenize : PyStr → Except PyStr (List PyStr))
    (stop_words : List PyStr) (texts : List PyStr) : Except PyStr TopicsResult :=
  match word_tokenize (pyLower (joinSpace texts)) with
  | .error e => .error e
  | .ok tokens =>
    let words := tokens.filter
      (fun w => pyIsAlnum w && !(stop_words.contains w) && decide (3 < w.length))
    .ok
      { top_words := (sortByCountDesc (countFreq words)).take 20
        total_words := words.length
        unique_words := (countFreq words).length }

/-- Embedding of `RedditPersonaGenerator.extract_topics_and_interests`
(lines 213-239): the `try` body, with the catch-all `except` returning the
default `{'top_words': [], 'total_words': 0, 'unique_words': 0}`
(line 239). -/
def extract_topics_and_interests (word_tokenize : PyStr → Except PyStr (List PyStr))
    (stop_words : List PyStr) (texts : List PyStr) : TopicsResult :=
  match topicsBody word_tokenize stop_words texts with
  | .ok r => r
  | .error _ => ⟨[], 0, 0⟩

/-- The result dict of `analyze_user_activity_patterns` (lines 268-274). -/
structure ActivityResult where
  avg_time_between_posts : Rat
  top_subreddits : List (PyStr × Nat)
  total_subreddits : Nat
  post_count : Nat
  comment_count : Nat
deriving DecidableEq

/-- The list `[post_times[i+1] - post_times[i] for i in
range(len(post_times)-1)]` of line 251. -/
def consecDiffs : List Rat → List Rat
  | a :: b :: t => (b - a) :: consecDiffs (b :: t)
  | _ => []

/-- Python `list.sort()` on numbers: ascending sort.  On a list of plain
values every correct sort produces the same list, so insertion sort is an
exact model. -/
def pySortRat (l : List Rat) : List Rat := List.insertionSort (· ≤ ·) l

/-- The posting-frequency computation of lines 248-254: sort the post
timestamps ascending, take consecutive differences, and average them (0
with fewer than two posts). -/
def avgTimeBetweenPosts (posts : List Post) : Rat :=
  if posts ≠ [] then
    if consecDiffs (pySortRat (posts.map Post.created_utc)) ≠ [] then
      (consecDiffs (pySortRat (posts.map Post.created_utc))).sum /
        ((consecDiffs (pySortRat (posts.map Post.created_utc))).length : Rat)
    else 0
  else 0

/-- Embedding of `RedditPersonaGenerator.analyze_user_activity_patterns`
(lines 241-277), as a function of the collected posts and comments
(`self.user_data` holds exactly these two lists plus the profile).  The
subreddit dict is filled from posts first, then comments (lines 257-264);
the `try` body is total, so the `except {}` branch is unreachable. -/
def analyze_user_activity_patterns (posts : List Post) (comments : List Comment) :
    ActivityResult :=
  let subreddit_counts := countFreq (posts.map Post.subreddit ++ comments.map Comment.subreddit)
  { avg_time_between_posts := avgTimeBetweenPosts posts
    top_subreddits := (sortByCountDesc subreddit_counts).take 10
    total_subreddits := subreddit_counts.length
    post_count := posts.length
    comment_count := comments.length }

/-- Trace of the Gemini retry loop: the final outcome, the number of
`generate_content` calls made, and the total seconds slept (each
`time.sleep(2)` contributes 2). -/
structure RetryTrace where
  result : Except PyStr PyStr
  calls : Nat
  sleepSeconds : Nat
deriving DecidableEq

/-- Embedding of the retry loop of `generate_persona_with_llm`
(lines 360-393).  `call n` models the `generate_content` call of attempt
`n` (0-based): `.ok t` is a response whose `.text` is `t` (an empty `t`
models a falsy or empty response), `.error e` a raised exception.  On a
non-empty text the loop breaks; on the last attempt an empty response
raises `ValueError` and an exception is re-raised; otherwise the loop
sleeps 2 seconds and retries.  The fall-through branch (loop ends with no
result) is unreachable whenever `max_retries > 0`. -/
def geminiRetryFuel (call : Nat → Except PyStr PyStr) (max_retries : Nat) :
    Nat → Nat → RetryTrace
  | _, 0 => ⟨.error (pys "persona_text unbound"), 0, 0⟩
  | attempt, fuel + 1 =>
    if attempt < max_retries then
      match call attempt with
      | .ok t =>
        if t ≠ [] then ⟨.ok t, 1, 0⟩
        else if attempt = max_retries - 1 then
          ⟨.error (pys "Gemini returned empty response after all retries"), 1, 0⟩
        else
          let r := geminiRetryFuel call max_retries (attempt + 1) fuel
          ⟨r.result, r.calls + 1, r.sleepSeconds + 2⟩
      | .error e =>
        if attempt = max_retries - 1 then ⟨.error e, 1, 0⟩
        else
          let r := geminiRetryFuel call max_retries (attempt + 1) fuel
          ⟨r.result, r.calls + 1, r.sleepSeconds + 2⟩
    else ⟨.error (pys "persona_text unbound"), 0, 0⟩

/-- The retry loop from attempt `attempt`; the fuel `max_retries - attempt`
covers all remaining iterations, so the structural-fuel formulation agrees
with the Python `for attempt in range(max_retries)` loop. -/
def geminiRetry (call : Nat → Except PyStr PyStr) (max_retries attempt : Nat) : RetryTrace :=
  geminiRetryFuel call max_retries attempt (max_retries - attempt)

/-- The retry loop as run by `generate_persona_with_llm`:
`max_retries = 3` (line 361), starting at attempt 0. -/
def generateWithRetry (call : Nat → Except PyStr PyStr) : RetryTrace :=
  geminiRetry call 3 0

/-- A character that can occur in a Reddit username (letters, digits,
underscore, hyphen). -/
def isUsernameChar (c : Char) : Bool := c.isAlphanum || c = '_' || c = '-'

/-- A bare Reddit username: non-empty and made of username characters
only (in particular it contains no slash, dot, colon or whitespace). -/
abbrev validUsername (s : PyStr) : Prop := s ≠ [] ∧ ∀ c ∈ s, isUsernameChar c = true

/-- Minimum of a list of rationals (0 on the empty list, never used there). -/
def ratMinOfList : List Rat → Rat
  | [] => 0
  | a :: t => t.foldl min a

/-- Maximum of a list of rationals (0 on the empty list, never used there). -/
def ratMaxOfList : List Rat → Rat
  | [] => 0
  | a :: t => t.foldl max a

/-- First mock post of `create_mock_data` in src/test_example.py (score 127). -/
def mockPost1 : Post :=
  { id := pys "post1"
    title := pys "My experience with Python async programming"
    selftext := pys "I recently started learning async programming in Python and wanted to share my journey."
    subreddit := pys "programming"
    score := 127
    upvote_r := (95 : Rat) / 100
    num_comments := 45
    created_utc := 1700000000
    url := pys "https://example.com"
    permalink := pys "/r/programming/comments/post1"
    is_self := true }

/-- Second mock post of `create_mock_data` in src/test_example.py (score 89). -/
def mockPost2 : Post :=
  { id := pys "post2"
    title := pys "Best practices for machine learning projects"
    selftext := pys "After working on several ML projects, here are the key lessons I learned."
    subreddit := pys "MachineLearning"
    score := 89
    upvote_r := (92 : Rat) / 100
    num_comments := 32
    created_utc := 1699000000
    url := pys "https://example.com"
    permalink := pys "/r/MachineLearning/comments/post2"
    is_self := true }

/-- First mock comment of `create_mock_data` in src/test_example.py (score 15). -/
def mockComment1 : Comment :=
  { id := pys "comment1"
    body := pys "Great question! I think the key is to start with simple models."
    subreddit := pys "datascience"
    score := 15
    created_utc := 1698000000
    permalink := pys "/r/datascience/comments/comment1"
    parent_id := pys "parent1" }

/-- Second mock comment of `create_mock_data` in src/test_example.py (score 8). -/
def mockComment2 : Comment :=
  { id := pys "comment2"
    body := pys "I completely agree with your analysis. The documentation could be improved."
    subreddit := pys "programming"
    score := 8
    created_utc := 1697000000
    permalink := pys "/r/programming/comments/comment2"
    parent_id := pys "parent2" }

/-! ### Helper lemmas about the Python string model -/

theorem startswith_iff : ∀ p s : PyStr, startswith p s = true ↔ p <+: s
  | [], s => by simp [startswith]
  | c :: p, [] => by simp [startswith]
  | c :: p, d :: s => by
    simp [startswith, Bool.and_eq_true, decide_eq_true_eq, startswith_iff p s,
      List.cons_prefix_cons]

theorem pyIn_iff : ∀ n h : PyStr, pyIn n h = true ↔ n <:+: h
  | n, [] => by
    simp [pyIn, startswith_iff]
  | n, c :: t => by
    simp [pyIn, Bool.or_eq_true, startswith_iff, pyIn_iff n t, List.infix_cons_iff]

theorem startswith_false_of {p s : PyStr} {c : Char} (hc : c ∈ p) (hs : c ∉ s) :
    startswith p s = false := by
  by_contra h
  rw [Bool.not_eq_false] at h
  exact hs (((startswith_iff p s).1 h).subset hc)

theorem pyIn_false_of {n h : PyStr} {c : Char} (hc : c ∈ n) (hn : c ∉ h) :
    pyIn n h = false := by
  by_contra hb
  rw [Bool.not_eq_false] at hb
  exact hn (((pyIn_iff n h).1 hb).subset hc)

theorem dropWhile_eq_self_of_all {p : Char → Bool} :
    ∀ {s : PyStr}, (∀ c ∈ s, p c = false) → s.dropWhile p = s
  | [], _ => rfl
  | c :: t, h => by
    rw [List.dropWhile_cons, h c (by simp)]
    simp

theorem pyStrip_eq_self {s : PyStr} (h : ∀ c ∈ s, c.isWhitespace = false) :
    pyStrip s = s := by
  unfold pyStrip
  rw [dropWhile_eq_self_of_all h,
    dropWhile_eq_self_of_all (fun c hc => h c (List.mem_reverse.1 hc)),
    List.reverse_reverse]

theorem pyStrip_infix_self (s : PyStr) : pyStrip s <:+: s := by
  unfold pyStrip
  have h1 : s.dropWhile Char.isWhitespace <:+ s := List.dropWhile_suffix _
  have h2 : (s.dropWhile Char.isWhitespace).reverse.dropWhile Char.isWhitespace <:+
      (s.dropWhile Char.isWhitespace).reverse := List.dropWhile_suffix _
  have h3 : ((s.dropWhile Char.isWhitespace).reverse.dropWhile Char.isWhitespace).reverse <+:
      s.dropWhile Char.isWhitespace := by
    rw [← List.reverse_suffix]
    simpa using h2
  exact h3.isInfix.trans h1.isInfix

theorem infix_dropWhile_ws {n : PyStr} (hn : ∀ c ∈ n, c.isWhitespace = false) :
    ∀ {s : PyStr}, n <:+: s → n <:+: s.dropWhile Char.isWhitespace
  | [], h => by simpa using h
  | c :: t, h => by
    rw [List.dropWhile_cons]
    by_cases hw : c.isWhitespace = true
    · rw [if_pos hw]
      rcases List.infix_cons_iff.1 h with hpre | hinf
      · rcases n with _ | ⟨x, xs⟩
        · exact List.nil_infix
        · rcases List.cons_prefix_cons.1 hpre with ⟨rfl, -⟩
          exact absurd hw (by simp [hn x (by simp)])
      · exact infix_dropWhile_ws hn hinf
    · rw [if_neg hw]
      exact h

theorem pyIn_pyStrip {n : PyStr} (hn : ∀ c ∈ n, c.isWhitespace = false) (s : PyStr) :
    pyIn n (pyStrip s) = pyIn n s := by
  rw [Bool.eq_iff_iff, pyIn_iff, pyIn_iff]
  constructor
  · intro h
    exact h.trans (pyStrip_infix_self s)
  · intro h
    have h1 : n <:+: s.dropWhile Char.isWhitespace := infix_dropWhile_ws hn h
    have h2 : n.reverse <:+: (s.dropWhile Char.isWhitespace).reverse :=
      List.reverse_infix.2 h1
    have h3 : n.reverse <:+:
        (s.dropWhile Char.isWhitespace).reverse.dropWhile Char.isWhitespace :=
      infix_dropWhile_ws (fun c hc => hn c (List.mem_reverse.1 hc)) h2
    have h4 := List.reverse_infix.2 h3
    rw [List.reverse_reverse] at h4
    exact h4

theorem pySplit_ne_nil (sep : Char) : ∀ l : PyStr, pySplit sep l ≠ []
  | [] => by simp [pySplit]
  | c :: t => by
    simp only [pySplit]
    split <;> simp

theorem pySplit_not_mem {sep : Char} : ∀ {l : PyStr}, sep ∉ l → pySplit sep l = [l]
  | [], _ => rfl
  | c :: t, h => by
    have hc : ¬(c = sep) := fun e => h (by simp [e])
    have ht : sep ∉ t := fun e => h (by simp [e])
    simp only [pySplit, pySplit_not_mem ht]
    rw [if_neg hc]
    rfl

theorem pySplit_cons (sep c : Char) (t : PyStr) :
    pySplit sep (c :: t) = if c = sep then [] :: pySplit sep t
      else (c :: (pySplit sep t).headD []) :: (pySplit sep t).tail := rfl

theorem pySplit_append {sep : Char} :
    ∀ {a : PyStr}, sep ∉ a → ∀ x, pySplit sep (a ++ sep :: x) = a :: pySplit sep x
  | [], _, x => by
    rw [List.nil_append, pySplit_cons, if_pos rfl]
  | c :: a, h, x => by
    have hc : ¬(c = sep) := fun e => h (by simp [e])
    have ha : sep ∉ a := fun e => h (by simp [e])
    rw [List.cons_append, pySplit_cons, if_neg hc, pySplit_append ha x,
      List.headD_cons, List.tail_cons]

theorem length_pySplit_two {sep : Char} : ∀ {l : PyStr}, sep ∈ l → 2 ≤ (pySplit sep l).length
  | c :: t, h => by
    by_cases hc : c = sep
    · have h1 := pySplit_ne_nil sep t
      simp only [pySplit, if_pos hc, List.length_cons]
      have : 1 ≤ (pySplit sep t).length := by
        rcases he : pySplit sep t with - | ⟨g, gs⟩
        · exact absurd he h1
        · simp
      omega
    · have ht : sep ∈ t := by
        rcases List.mem_cons.1 h with e | e
        · exact absurd e.symm hc
        · exact e
      have h2 := length_pySplit_two ht
      simp only [pySplit, if_neg hc, List.length_cons]
      rcases he : pySplit sep t with - | ⟨g, gs⟩
      · exact absurd he (pySplit_ne_nil sep t)
      · rw [he] at h2
        simp only [List.length_cons] at h2
        simp only [List.tail_cons]
        omega

theorem getLastD_irrel {α : Type} {l : List α} (h : l ≠ []) (d d2 : α) :
    l.getLastD d = l.getLastD d2 := by
  cases l with
  | nil => exact absurd rfl h
  | cons a t => rw [List.getLastD_cons, List.getLastD_cons]

theorem pyLastStr_split_append {sep : Char} :
    ∀ (xs : PyStr) {y : PyStr}, sep ∉ y → pyLastStr (pySplit sep (xs ++ sep :: y)) = y := by
  intro xs
  induction xs with
  | nil =>
    intro ys h
    rw [List.nil_append, pySplit_cons, if_pos rfl, pySplit_not_mem h]
    rfl
  | cons c xs ih =>
    intro ys h
    rw [List.cons_append]
    rcases hz : pySplit sep (xs ++ sep :: ys) with - | ⟨g, gs⟩
    · exact absurd hz (pySplit_ne_nil sep _)
    · have hys := ih h
      rw [hz] at hys
      by_cases hc : c = sep
      · rw [pySplit_cons, if_pos hc, hz]
        unfold pyLastStr at hys ⊢
        rw [List.getLastD_cons]
        exact hys
      · have h2 : 2 ≤ (pySplit sep (xs ++ sep :: ys)).length :=
          length_pySplit_two (by simp)
        rw [hz] at h2
        have hgs : gs ≠ [] := by
          rcases gs with - | ⟨u, us⟩
          · simp at h2
          · simp
        rw [pySplit_cons, if_neg hc, hz, List.headD_cons, List.tail_cons]
        unfold pyLastStr at hys ⊢
        rw [List.getLastD_cons] at hys
        rw [List.getLastD_cons, getLastD_irrel hgs (c :: g) g]
        exact hys

theorem pyReplaceFuel_of_not_pyIn {old new : PyStr} :
    ∀ (f : Nat) {s : PyStr}, pyIn old s = false → pyReplaceFuel old new f s = s
  | 0, _, _ => rfl
  | _ + 1, [], _ => rfl
  | f + 1, c :: t, h => by
    have h0 : startswith old (c :: t) = false ∧ pyIn old t = false := by
      have h1 := h
      simp only [pyIn, Bool.or_eq_false_iff] at h1
      exact h1
    simp only [pyReplaceFuel]
    rw [if_neg, pyReplaceFuel_of_not_pyIn f h0.2]
    rintro ⟨-, hs⟩
    rw [h0.1] at hs
    exact Bool.false_ne_true hs

theorem pyReplace_of_not_pyIn {old new s : PyStr} (h : pyIn old s = false) :
    pyReplace old new s = s :=
  pyReplaceFuel_of_not_pyIn _ h

theorem dropWhile_head_ne {p : Char → Bool} {l : PyStr}
    (h : ∀ x, l.head? = some x → p x = false) : l.dropWhile p = l := by
  cases l with
  | nil => rfl
  | cons a t =>
    rw [List.dropWhile_cons, h a rfl]
    simp

theorem stripTrail_append {c : Char} {x : PyStr} (hx : ∀ d, x.getLast? = some d → d ≠ c)
    (y : PyStr) : stripTrail c (x ++ y) = x ++ stripTrail c y := by
  unfold stripTrail
  rw [List.reverse_append, List.dropWhile_append]
  have hxr : x.reverse.dropWhile (· = c) = x.reverse := by
    refine dropWhile_head_ne (fun d hd => ?_)
    rw [List.head?_reverse] at hd
    simp [hx d hd]
  by_cases he : (y.reverse.dropWhile (· = c)).isEmpty
  · rw [if_pos he, hxr]
    have hy : (y.reverse.dropWhile (· = c)).reverse = [] := by
      rw [List.isEmpty_iff] at he
      simp [he]
    rw [hy, List.append_nil, List.reverse_reverse]
  · rw [if_neg he, List.reverse_append, List.reverse_reverse]

theorem stripTrail_pre (c : Char) (s : PyStr) : stripTrail c s <+: s := by
  have h : s.reverse.dropWhile (· = c) <:+ s.reverse := List.dropWhile_suffix _
  have h2 := List.reverse_prefix.2 h
  rw [List.reverse_reverse] at h2
  exact h2

theorem breakAtChar_append {c : Char} :
    ∀ {a : PyStr}, c ∉ a → ∀ b, breakAtChar c (a ++ c :: b) = some (a, b)
  | [], _, b => by simp [breakAtChar]
  | d :: a, h, b => by
    have hd : ¬(d = c) := fun e => h (by simp [e])
    have ha : c ∉ a := fun e => h (by simp [e])
    simp [breakAtChar, hd, breakAtChar_append ha b]

/-! ### Lemmas about extract_username_from_url -/

theorem usernameChar_ne {c : Char} (h : isUsernameChar c = true) {d : Char}
    (hd : isUsernameChar d = false) : c ≠ d := by
  rintro rfl
  rw [h] at hd
  exact absurd hd (by decide)

theorem usernameChar_not_ws {c : Char} (h : isUsernameChar c = true) :
    c.isWhitespace = false := by
  by_contra hw
  rw [Bool.not_eq_false] at hw
  simp only [Char.isWhitespace, Bool.or_eq_true, decide_eq_true_eq] at hw
  rcases hw with ((rfl | rfl) | rfl) | rfl <;> exact absurd h (by decide)

theorem validUsername_not_mem {name : PyStr} (h : validUsername name) {d : Char}
    (hd : isUsernameChar d = false) : d ∉ name := fun hmem =>
  usernameChar_ne (h.2 d hmem) hd rfl

theorem validUsername_no_ws {name : PyStr} (h : validUsername name) :
    ∀ c ∈ name, c.isWhitespace = false := fun c hc => usernameChar_not_ws (h.2 c hc)

theorem extractCore_bare {name : PyStr} (h : validUsername name) :
    extractCore name = .ok name := by
  have hs : '/' ∉ name := validUsername_not_mem h (by decide)
  have hdot : '.' ∉ name := validUsername_not_mem h (by decide)
  have h1 : startswith ['u', '/'] name = false := startswith_false_of (by simp) hs
  have h2 : startswith ['/', 'u', '/'] name = false := startswith_false_of (by simp) hs
  have h3 : startswith (redditHost ++ ['/', 'u', '/']) name = false :=
    startswith_false_of (c := '.') (by decide) hdot
  have h4 : startswith (redditHost ++ ['/', 'u', 's', 'e', 'r', '/']) name = false :=
    startswith_false_of (c := '.') (by decide) hdot
  have h5 : pyIn redditHost name = false := pyIn_false_of (c := '.') (by decide) hdot
  have h6 : pyIn ['u', '/'] name = false := pyIn_false_of (c := '/') (by simp) hs
  have h7 : pyIn ['/', 'u', '/'] name = false := pyIn_false_of (c := '/') (by simp) hs
  unfold extractCore
  rw [h1, h2, h3, h4, h5]
  simp only [Bool.or_self, Bool.false_eq_true, if_false]
  rw [pyReplace_of_not_pyIn h6, pyReplace_of_not_pyIn h7]

theorem extractCore_uSlash {name : PyStr} (h : '/' ∉ name) :
    extractCore (['u', '/'] ++ name) = .ok name := by
  have h1 : startswith ['u', '/'] (['u', '/'] ++ name) = true :=
    (startswith_iff _ _).2 (List.prefix_append _ _)
  have h2 := pyLastStr_split_append ['u'] (y := name) h
  unfold extractCore
  rw [h1, Bool.true_or, if_pos rfl]
  simpa using h2

theorem extractCore_slashUSlash {name : PyStr} (h : '/' ∉ name) :
    extractCore (['/', 'u', '/'] ++ name) = .ok name := by
  have h1 : startswith ['/', 'u', '/'] (['/', 'u', '/'] ++ name) = true :=
    (startswith_iff _ _).2 (List.prefix_append _ _)
  have h2 := pyLastStr_split_append ['/', 'u'] (y := name) h
  unfold extractCore
  rw [h1, Bool.or_true, if_pos rfl]
  simpa using h2

theorem extractCore_redditU {name : PyStr} (h : '/' ∉ name) :
    extractCore (redditHost ++ ['/', 'u', '/'] ++ name) = .ok name := by
  have hb1 : startswith ['u', '/'] (redditHost ++ ['/', 'u', '/'] ++ name) = false := by
    simp [redditHost, startswith]
  have hb2 : startswith ['/', 'u', '/'] (redditHost ++ ['/', 'u', '/'] ++ name) = false := by
    simp [redditHost, startswith]
  have h1 : startswith (redditHost ++ ['/', 'u', '/']) (redditHost ++ ['/', 'u', '/'] ++ name)
      = true :=
    (startswith_iff _ _).2 (List.prefix_append _ _)
  have h2 := pyLastStr_split_append (redditHost ++ ['/', 'u']) (y := name) h
  unfold extractCore
  rw [hb1, hb2]
  simp only [Bool.or_self, Bool.false_eq_true, if_false]
  rw [h1, Bool.true_or, if_pos rfl]
  refine congrArg Except.ok ?_
  calc pyLastStr (pySplit '/' (redditHost ++ ['/', 'u', '/'] ++ name))
      = pyLastStr (pySplit '/' ((redditHost ++ ['/', 'u']) ++ '/' :: name)) := by
        simp [redditHost]
    _ = name := h2

theorem extractCore_redditUser {name : PyStr} (h : '/' ∉ name) :
    extractCore (redditHost ++ ['/', 'u', 's', 'e', 'r', '/'] ++ name) = .ok name := by
  have hb1 : startswith ['u', '/'] (redditHost ++ ['/', 'u', 's', 'e', 'r', '/'] ++ name)
      = false := by
    simp [redditHost, startswith]
  have hb2 : startswith ['/', 'u', '/'] (redditHost ++ ['/', 'u', 's', 'e', 'r', '/'] ++ name)
      = false := by
    simp [redditHost, startswith]
  have h1 : startswith (redditHost ++ ['/', 'u', 's', 'e', 'r', '/'])
      (redditHost ++ ['/', 'u', 's', 'e', 'r', '/'] ++ name) = true :=
    (startswith_iff _ _).2 (List.prefix_append _ _)
  have h2 := pyLastStr_split_append (redditHost ++ ['/', 'u', 's', 'e', 'r']) (y := name) h
  unfold extractCore
  rw [hb1, hb2]
  simp only [Bool.or_self, Bool.false_eq_true, if_false]
  rw [h1, Bool.or_true, if_pos rfl]
  refine congrArg Except.ok ?_
  calc pyLastStr (pySplit '/' (redditHost ++ ['/', 'u', 's', 'e', 'r', '/'] ++ name))
      = pyLastStr (pySplit '/' ((redditHost ++ ['/', 'u', 's', 'e', 'r']) ++ '/' :: name)) := by
        simp [redditHost]
    _ = name := h2

theorem takeUntilChar_append {c : Char} {a : PyStr} (h : ∀ x ∈ a, x ≠ c) (b : PyStr) :
    takeUntilChar c (a ++ b) = a ++ takeUntilChar c b := by
  unfold takeUntilChar
  refine List.takeWhile_append_of_pos ?_
  intro x hx
  simpa using h x hx

theorem takeUntilChar_cons_ne {c d : Char} (h : d ≠ c) (b : PyStr) :
    takeUntilChar c (d :: b) = d :: takeUntilChar c b := by
  simp [takeUntilChar, List.takeWhile_cons, h]

/-- The literal scheme-and-slashes part `'https://'` of a full profile URL. -/
def httpsPre : PyStr := ['h', 't', 't', 'p', 's', ':', '/', '/']

theorem extractCore_fullURL {name host rest seg : PyStr}
    (hn : validUsername name)
    (hh1 : pyIn redditHost host = true)
    (hh2 : ∀ c ∈ host, c ≠ ':' ∧ c ≠ '/' ∧ c ≠ '?' ∧ c ≠ '#')
    (hr : rest = [] ∨ ∃ t, rest = '/' :: t)
    (hseg : seg = pys "user" ∨ seg = pys "u") :
    extractCore (httpsPre ++ (host ++ ('/' :: (seg ++ ('/' :: (name ++ rest)))))) = .ok name := by
  have hnslash : '/' ∉ name := validUsername_not_mem hn (by decide)
  have hnhash : ∀ c ∈ name, c ≠ '#' := fun c hc => usernameChar_ne (hn.2 c hc) (by decide)
  have hnquest : ∀ c ∈ name, c ≠ '?' := fun c hc => usernameChar_ne (hn.2 c hc) (by decide)
  have hsegc : ∀ c ∈ seg, c ≠ '#' ∧ c ≠ '?' ∧ c ≠ '/' := by
    rcases hseg with rfl | rfl <;> decide
  have hsegne : seg ≠ [] := by
    rcases hseg with rfl | rfl <;> decide
  -- branch conditions of the two startswith dispatches
  have hb1 : startswith ['u', '/']
      (httpsPre ++ (host ++ ('/' :: (seg ++ ('/' :: (name ++ rest)))))) = false := by
    simp [httpsPre, startswith]
  have hb2 : startswith ['/', 'u', '/']
      (httpsPre ++ (host ++ ('/' :: (seg ++ ('/' :: (name ++ rest)))))) = false := by
    simp [httpsPre, startswith]
  have hb3 : startswith (redditHost ++ ['/', 'u', '/'])
      (httpsPre ++ (host ++ ('/' :: (seg ++ ('/' :: (name ++ rest)))))) = false := by
    simp [httpsPre, redditHost, startswith]
  have hb4 : startswith (redditHost ++ ['/', 'u', 's', 'e', 'r', '/'])
      (httpsPre ++ (host ++ ('/' :: (seg ++ ('/' :: (name ++ rest)))))) = false := by
    simp [httpsPre, redditHost, startswith]
  have hpyin : pyIn redditHost
      (httpsPre ++ (host ++ ('/' :: (seg ++ ('/' :: (name ++ rest)))))) = true := by
    refine (pyIn_iff _ _).2 ?_
    have i1 : redditHost <:+: host := (pyIn_iff _ _).1 hh1
    have i2 : host <:+: host ++ ('/' :: (seg ++ ('/' :: (name ++ rest)))) :=
      (List.prefix_append _ _).isInfix
    have i3 : host ++ ('/' :: (seg ++ ('/' :: (name ++ rest)))) <:+:
        httpsPre ++ (host ++ ('/' :: (seg ++ ('/' :: (name ++ rest))))) :=
      (List.suffix_append _ _).isInfix
    exact (i1.trans i2).trans i3
  -- the parsed path
  have hs0 : httpsPre ++ (host ++ ('/' :: (seg ++ ('/' :: (name ++ rest))))) =
      ['h', 't', 't', 'p', 's'] ++ ':' ::
        ('/' :: '/' :: (host ++ ('/' :: (seg ++ ('/' :: (name ++ rest)))))) := by
    simp [httpsPre]
  have hds : dropScheme (httpsPre ++ (host ++ ('/' :: (seg ++ ('/' :: (name ++ rest)))))) =
      '/' :: '/' :: (host ++ ('/' :: (seg ++ ('/' :: (name ++ rest))))) := by
    unfold dropScheme
    rw [hs0, breakAtChar_append (by decide)]
    dsimp only
    rw [if_pos (by decide)]
  have hhostpos : ∀ c ∈ host, (fun c => c ≠ '/' && c ≠ '?' && c ≠ '#') c = true := by
    intro c hc
    rcases hh2 c hc with ⟨-, h2, h3, h4⟩
    simp [h2, h3, h4]
  have hdn : dropNetloc ('/' :: '/' :: (host ++ ('/' :: (seg ++ ('/' :: (name ++ rest)))))) =
      '/' :: (seg ++ ('/' :: (name ++ rest))) := by
    unfold dropNetloc
    rw [if_pos (by simp [pys, startswith])]
    simp only [List.drop_succ_cons, List.drop_zero]
    rw [List.dropWhile_append_of_pos hhostpos, List.dropWhile_cons]
    simp
  -- cutting fragment and query only affects the trailing rest
  have hA1 : ∀ x ∈ ('/' :: seg) ++ '/' :: name, x ≠ '#' := by
    intro x hx
    rcases List.mem_append.1 hx with hx | hx
    · rcases List.mem_cons.1 hx with rfl | hx
      · decide
      · exact (hsegc x hx).1
    · rcases List.mem_cons.1 hx with rfl | hx
      · decide
      · exact hnhash x hx
  have hA2 : ∀ x ∈ ('/' :: seg) ++ '/' :: name, x ≠ '?' := by
    intro x hx
    rcases List.mem_append.1 hx with hx | hx
    · rcases List.mem_cons.1 hx with rfl | hx
      · decide
      · exact (hsegc x hx).2.1
    · rcases List.mem_cons.1 hx with rfl | hx
      · decide
      · exact hnquest x hx
  have hassoc : '/' :: (seg ++ ('/' :: (name ++ rest))) =
      (('/' :: seg) ++ '/' :: name) ++ rest := by
    simp
  have hpathtake :
      takeUntilChar '?' (takeUntilChar '#' ('/' :: (seg ++ ('/' :: (name ++ rest))))) =
      (('/' :: seg) ++ '/' :: name) ++
        takeUntilChar '?' (takeUntilChar '#' rest) := by
    rw [hassoc, takeUntilChar_append hA1, takeUntilChar_append hA2]
  have hpath : urlparsePath (httpsPre ++ (host ++ ('/' :: (seg ++ ('/' :: (name ++ rest)))))) =
      (('/' :: seg) ++ '/' :: name) ++ takeUntilChar '?' (takeUntilChar '#' rest) := by
    unfold urlparsePath
    rw [hds, hdn, hpathtake]
  -- shape of the stripped tail
  have hr2 : takeUntilChar '?' (takeUntilChar '#' rest) = [] ∨
      ∃ t2, takeUntilChar '?' (takeUntilChar '#' rest) = '/' :: t2 := by
    rcases hr with rfl | ⟨t, rfl⟩
    · left
      rfl
    · right
      rw [takeUntilChar_cons_ne (by decide), takeUntilChar_cons_ne (by decide)]
      exact ⟨_, rfl⟩
  -- stripping slashes from the path
  have hsegdw : List.dropWhile (fun x => x = '/') seg = seg :=
    dropWhile_eq_self_of_all (fun c hc => by simp [(hsegc c hc).2.2])
  have hstripL : List.dropWhile (fun x => x = '/')
      ((('/' :: seg) ++ '/' :: name) ++ takeUntilChar '?' (takeUntilChar '#' rest)) =
      (seg ++ '/' :: name) ++ takeUntilChar '?' (takeUntilChar '#' rest) := by
    have e1 : (('/' :: seg) ++ '/' :: name) ++ takeUntilChar '?' (takeUntilChar '#' rest) =
        '/' :: (seg ++ (('/' :: name) ++ takeUntilChar '?' (takeUntilChar '#' rest))) := by
      simp
    rw [e1, List.dropWhile_cons, if_pos (by simp), List.dropWhile_append]
    rw [hsegdw, if_neg (by simp [hsegne])]
    simp
  have hxlast : ∀ d, (seg ++ '/' :: name).getLast? = some d → d ≠ '/' := by
    intro d hd
    have hnn : name ≠ [] := hn.1
    obtain ⟨m, hm⟩ : ∃ m, name.getLast? = some m := by
      rcases ho : name.getLast? with - | m
      · rw [List.getLast?_eq_none_iff] at ho
        exact absurd ho hnn
      · exact ⟨m, rfl⟩
    obtain ⟨ys, hys⟩ := List.getLast?_eq_some_iff.1 hm
    have hall : (seg ++ '/' :: name).getLast? = some m := by
      rw [List.getLast?_eq_some_iff]
      refine ⟨seg ++ '/' :: ys, ?_⟩
      rw [hys]
      simp
    rw [hall] at hd
    have hmd : m = d := Option.some.inj hd
    subst hmd
    have hmmem : m ∈ name := by
      rw [hys]
      simp
    exact usernameChar_ne (hn.2 m hmmem) (by decide)
  have hstrip : pyStripChar '/'
      ((('/' :: seg) ++ '/' :: name) ++ takeUntilChar '?' (takeUntilChar '#' rest)) =
      (seg ++ '/' :: name) ++
        stripTrail '/' (takeUntilChar '?' (takeUntilChar '#' rest)) := by
    unfold pyStripChar
    rw [show ((fun x => x = '/') : Char → Bool) = (fun x => decide (x = '/')) from rfl] at hstripL
    rw [hstripL]
    exact stripTrail_append hxlast _
  -- shape of the fully stripped tail
  have hr3 : stripTrail '/' (takeUntilChar '?' (takeUntilChar '#' rest)) = [] ∨
      ∃ u, stripTrail '/' (takeUntilChar '?' (takeUntilChar '#' rest)) = '/' :: u := by
    rcases hr2 with he | ⟨t2, he⟩
    · left
      rw [he]
      rfl
    · have hp := stripTrail_pre '/' (takeUntilChar '?' (takeUntilChar '#' rest))
      rcases hq : stripTrail '/' (takeUntilChar '?' (takeUntilChar '#' rest)) with - | ⟨d, u⟩
      · exact Or.inl rfl
      · rw [hq, he] at hp
        rcases List.cons_prefix_cons.1 hp with ⟨rfl, -⟩
        exact Or.inr ⟨u, rfl⟩
  -- the path parts
  have hsegslash : '/' ∉ seg := fun hmem => (hsegc '/' hmem).2.2 rfl
  have hparts : ∃ ps, pathParts
      (httpsPre ++ (host ++ ('/' :: (seg ++ ('/' :: (name ++ rest)))))) =
      seg :: name :: ps := by
    unfold pathParts
    rw [hpath, hstrip]
    rcases hr3 with he | ⟨u, he⟩
    · rw [he, List.append_nil, show seg ++ '/' :: name = seg ++ '/' :: name from rfl]
      rw [pySplit_append hsegslash, pySplit_not_mem hnslash]
      exact ⟨[], rfl⟩
    · rw [he, show (seg ++ '/' :: name) ++ '/' :: u = seg ++ '/' :: (name ++ '/' :: u) from by simp]
      rw [pySplit_append hsegslash, pySplit_append hnslash]
      exact ⟨_, rfl⟩
  obtain ⟨ps, hparts⟩ := hparts
  -- put everything together
  unfold extractCore
  rw [hb1, hb2]
  simp only [Bool.or_self, Bool.false_eq_true, if_false]
  rw [hb3, hb4]
  simp only [Bool.or_self, Bool.false_eq_true, if_false]
  rw [hpyin, if_pos rfl, if_pos]
  · rw [hparts]
    rfl
  · constructor
    · rw [hparts]
      simp
    · rw [hparts]
      simpa using hseg

theorem extractCore_error_iff (u : PyStr) :
    (∃ e, extractCore u = .error e) ↔
      (pyIn redditHost u = true ∧
       startswith ['u', '/'] u = false ∧ startswith ['/', 'u', '/'] u = false ∧
       startswith (redditHost ++ ['/', 'u', '/']) u = false ∧
       startswith (redditHost ++ ['/', 'u', 's', 'e', 'r', '/']) u = false ∧
       ¬(2 ≤ (pathParts u).length ∧
          ((pathParts u).headD [] = pys "user" ∨ (pathParts u).headD [] = pys "u"))) := by
  unfold extractCore
  constructor
  · rintro ⟨e, he⟩
    by_cases h1 : (startswith ['u', '/'] u || startswith ['/', 'u', '/'] u) = true
    · rw [if_pos h1] at he
      simp at he
    rw [if_neg h1] at he
    by_cases h2 : (startswith (redditHost ++ ['/', 'u', '/']) u
        || startswith (redditHost ++ ['/', 'u', 's', 'e', 'r', '/']) u) = true
    · rw [if_pos h2] at he
      simp at he
    rw [if_neg h2] at he
    by_cases h3 : pyIn redditHost u = true
    · rw [if_pos h3] at he
      by_cases h4 : 2 ≤ (pathParts u).length ∧
          ((pathParts u).headD [] = pys "user" ∨ (pathParts u).headD [] = pys "u")
      · rw [if_pos h4] at he
        simp at he
      · simp only [Bool.or_eq_true, not_or, Bool.not_eq_true] at h1 h2
        exact ⟨h3, h1.1, h1.2, h2.1, h2.2, h4⟩
    · rw [if_neg h3] at he
      simp at he
  · rintro ⟨hin, hs1, hs2, hs3, hs4, hbad⟩
    rw [hs1, hs2]
    simp only [Bool.or_self, Bool.false_eq_true, if_false]
    rw [hs3, hs4]
    simp only [Bool.or_self, Bool.false_eq_true, if_false]
    rw [hin, if_pos rfl, if_neg hbad]
    exact ⟨_, rfl⟩

theorem no_ws_append {a b : PyStr} (ha : ∀ c ∈ a, c.isWhitespace = false)
    (hb : ∀ c ∈ b, c.isWhitespace = false) : ∀ c ∈ a ++ b, c.isWhitespace = false := by
  intro c hc
  rcases List.mem_append.1 hc with h | h
  · exact ha c h
  · exact hb c h

/-- C2: for every bare username (non-empty, made of username characters),
`extract_username_from_url` returns it unchanged, and the four supported
prefixed shapes as well as full `https` URLs whose path is
`/user/<name>/...` or `/u/<name>/...` (any host containing `reddit.com`)
all normalize to the same bare username. -/
theorem extract_username_from_url_idempotent_convergent (name : PyStr)
    (h : validUsername name) :
    extract_username_from_url name = .ok name ∧
    extract_username_from_url (['u', '/'] ++ name) = .ok name ∧
    extract_username_from_url (['/', 'u', '/'] ++ name) = .ok name ∧
    extract_username_from_url (redditHost ++ ['/', 'u', '/'] ++ name) = .ok name ∧
    extract_username_from_url (redditHost ++ ['/', 'u', 's', 'e', 'r', '/'] ++ name)
      = .ok name ∧
    ∀ host rest seg : PyStr,
      pyIn redditHost host = true →
      (∀ c ∈ host, c ≠ ':' ∧ c ≠ '/' ∧ c ≠ '?' ∧ c ≠ '#' ∧ c.isWhitespace = false) →
      (rest = [] ∨ ∃ t, rest = '/' :: t) →
      (∀ c ∈ rest, c.isWhitespace = false) →
      (seg = pys "user" ∨ seg = pys "u") →
      extract_username_from_url
        (httpsPre ++ (host ++ ('/' :: (seg ++ ('/' :: (name ++ rest)))))) = .ok name := by
  have hnws : ∀ c ∈ name, c.isWhitespace = false := validUsername_no_ws h
  have hslash : '/' ∉ name := validUsername_not_mem h (by decide)
  refine ⟨?_, ?_, ?_, ?_, ?_, ?_⟩
  · rw [extract_username_from_url, pyStrip_eq_self hnws]
    exact extractCore_bare h
  · rw [extract_username_from_url, pyStrip_eq_self (no_ws_append (by decide) hnws)]
    exact extractCore_uSlash hslash
  · rw [extract_username_from_url, pyStrip_eq_self (no_ws_append (by decide) hnws)]
    exact extractCore_slashUSlash hslash
  · rw [extract_username_from_url,
      pyStrip_eq_self (no_ws_append (no_ws_append (by decide) (by decide)) hnws)]
    exact extractCore_redditU hslash
  · rw [extract_username_from_url,
      pyStrip_eq_self (no_ws_append (no_ws_append (by decide) (by decide)) hnws)]
    exact extractCore_redditUser hslash
  · intro host rest seg hh1 hh2 hr hrws hseg
    have hsegws : ∀ c ∈ seg, c.isWhitespace = false := by
      rcases hseg with rfl | rfl <;> decide
    have hhostws : ∀ c ∈ host, c.isWhitespace = false := fun c hc => (hh2 c hc).2.2.2.2
    have hws : ∀ c ∈ httpsPre ++ (host ++ ('/' :: (seg ++ ('/' :: (name ++ rest))))),
        c.isWhitespace = false := by
      refine no_ws_append (by decide) (no_ws_append hhostws ?_)
      intro c hc
      rcases List.mem_cons.1 hc with rfl | hc
      · decide
      rcases List.mem_append.1 hc with hc | hc
      · exact hsegws c hc
      rcases List.mem_cons.1 hc with rfl | hc
      · decide
      rcases List.mem_append.1 hc with hc | hc
      · exact hnws c hc
      · exact hrws c hc
    rw [extract_username_from_url, pyStrip_eq_self hws]
    exact extractCore_fullURL h hh1
      (fun c hc => ⟨(hh2 c hc).1, (hh2 c hc).2.1, (hh2 c hc).2.2.1, (hh2 c hc).2.2.2.1⟩)
      hr hseg

/-- Witness for C2 at the concrete username `alice`: the bare form, the
`u/` form and a full URL with host `www.reddit.com` and a trailing slash
all yield `alice`. -/
theorem extract_username_from_url_idempotent_convergent_witness :
    extract_username_from_url (pys "alice") = .ok (pys "alice") ∧
    extract_username_from_url (pys "u/alice") = .ok (pys "alice") ∧
    extract_username_from_url (pys "https://www.reddit.com/user/alice/")
      = .ok (pys "alice") := by
  have h := extract_username_from_url_idempotent_convergent (pys "alice") (by decide)
  refine ⟨h.1, ?_, ?_⟩
  · have h2 := h.2.1
    rw [show pys "u/alice" = ['u', '/'] ++ pys "alice" from by decide]
    exact h2
  · have h6 := h.2.2.2.2.2 (pys "www.reddit.com") ['/'] (pys "user")
      (by decide) (by decide) (Or.inr ⟨[], rfl⟩) (by decide) (Or.inl rfl)
    rw [show pys "https://www.reddit.com/user/alice/" =
      httpsPre ++ (pys "www.reddit.com" ++
        ('/' :: (pys "user" ++ ('/' :: (pys "alice" ++ ['/']))))) from by decide]
    exact h6

/-- C9 (implicit): an input of the shape `reddit.com/user/<name>/` or
`reddit.com/u/<name>/` — no scheme, trailing slash — hits the
`startswith('reddit.com/...')` branch, whose `url.split('/')[-1]` is the
text after the last slash, i.e. the empty string: the function returns
`''` rather than the username and rather than raising. -/
theorem extract_username_trailing_slash_empty (name : PyStr) (h : validUsername name) :
    extract_username_from_url (redditHost ++ ['/', 'u', 's', 'e', 'r', '/'] ++ name ++ ['/'])
      = .ok [] ∧
    extract_username_from_url (redditHost ++ ['/', 'u', '/'] ++ name ++ ['/'])
      = .ok [] := by
  have hnws : ∀ c ∈ name, c.isWhitespace = false := validUsername_no_ws h
  constructor
  · rw [extract_username_from_url, pyStrip_eq_self
      (no_ws_append (no_ws_append (no_ws_append (by decide) (by decide)) hnws) (by decide))]
    have hb1 : startswith ['u', '/']
        (redditHost ++ ['/', 'u', 's', 'e', 'r', '/'] ++ name ++ ['/']) = false := by
      simp [redditHost, startswith]
    have hb2 : startswith ['/', 'u', '/']
        (redditHost ++ ['/', 'u', 's', 'e', 'r', '/'] ++ name ++ ['/']) = false := by
      simp [redditHost, startswith]
    have h1 : startswith (redditHost ++ ['/', 'u', 's', 'e', 'r', '/'])
        (redditHost ++ ['/', 'u', 's', 'e', 'r', '/'] ++ name ++ ['/']) = true := by
      refine (startswith_iff _ _).2 ?_
      exact (List.prefix_append _ _).trans (List.prefix_append _ _)
    unfold extractCore
    rw [hb1, hb2]
    simp only [Bool.or_self, Bool.false_eq_true, if_false]
    rw [h1, Bool.or_true, if_pos rfl]
    rw [pyLastStr_split_append (redditHost ++ ['/', 'u', 's', 'e', 'r', '/'] ++ name)
      (y := []) (List.not_mem_nil '/')]
  · rw [extract_username_from_url, pyStrip_eq_self
      (no_ws_append (no_ws_append (no_ws_append (by decide) (by decide)) hnws) (by decide))]
    have hb1 : startswith ['u', '/']
        (redditHost ++ ['/', 'u', '/'] ++ name ++ ['/']) = false := by
      simp [redditHost, startswith]
    have hb2 : startswith ['/', 'u', '/']
        (redditHost ++ ['/', 'u', '/'] ++ name ++ ['/']) = false := by
      simp [redditHost, startswith]
    have h1 : startswith (redditHost ++ ['/', 'u', '/'])
        (redditHost ++ ['/', 'u', '/'] ++ name ++ ['/']) = true := by
      refine (startswith_iff _ _).2 ?_
      exact (List.prefix_append _ _).trans (List.prefix_append _ _)
    unfold extractCore
    rw [hb1, hb2]
    simp only [Bool.or_self, Bool.false_eq_true, if_false]
    rw [h1, Bool.true_or, if_pos rfl]
    rw [pyLastStr_split_append (redditHost ++ ['/', 'u', '/'] ++ name)
      (y := []) (List.not_mem_nil '/')]

/-- Witness for C9 at the concrete username `alice`: both no-scheme
trailing-slash inputs return the empty string. -/
theorem extract_username_trailing_slash_empty_witness :
    extract_username_from_url (pys "reddit.com/user/alice/") = .ok [] ∧
    extract_username_from_url (pys "reddit.com/u/alice/") = .ok [] := by
  have h := extract_username_trailing_slash_empty (pys "alice") (by decide)
  constructor
  · rw [show pys "reddit.com/user/alice/" =
      redditHost ++ ['/', 'u', 's', 'e', 'r', '/'] ++ pys "alice" ++ ['/'] from by decide]
    exact h.1
  · rw [show pys "reddit.com/u/alice/" =
      redditHost ++ ['/', 'u', '/'] ++ pys "alice" ++ ['/'] from by decide]
    exact h.2

/-- C7: `extract_username_from_url` raises exactly when the (stripped)
input contains `reddit.com`, starts with none of the four recognized
prefixes, and its parsed path does not begin with a `user` or `u` segment
followed by a name segment; containment of `reddit.com` is unaffected by
stripping, and every input without `reddit.com` returns a string without
error. -/
theorem extract_username_from_url_error_iff (url : PyStr) :
    ((∃ e, extract_username_from_url url = .error e) ↔
      (pyIn redditHost url = true ∧
       startswith ['u', '/'] (pyStrip url) = false ∧
       startswith ['/', 'u', '/'] (pyStrip url) = false ∧
       startswith (redditHost ++ ['/', 'u', '/']) (pyStrip url) = false ∧
       startswith (redditHost ++ ['/', 'u', 's', 'e', 'r', '/']) (pyStrip url) = false ∧
       ¬(2 ≤ (pathParts (pyStrip url)).length ∧
          ((pathParts (pyStrip url)).headD [] = pys "user" ∨
           (pathParts (pyStrip url)).headD [] = pys "u")))) ∧
    (pyIn redditHost url = false → ∃ s, extract_username_from_url url = .ok s) := by
  have hws : ∀ c ∈ redditHost, c.isWhitespace = false := by decide
  have hinv := pyIn_pyStrip hws url
  constructor
  · rw [extract_username_from_url, extractCore_error_iff (pyStrip url), hinv]
  · intro h
    have h2 : pyIn redditHost (pyStrip url) = false := by
      rw [hinv]
      exact h
    rw [extract_username_from_url]
    unfold extractCore
    by_cases h1 : (startswith ['u', '/'] (pyStrip url)
        || startswith ['/', 'u', '/'] (pyStrip url)) = true
    · rw [if_pos h1]
      exact ⟨_, rfl⟩
    rw [if_neg h1]
    by_cases h3 : (startswith (redditHost ++ ['/', 'u', '/']) (pyStrip url)
        || startswith (redditHost ++ ['/', 'u', 's', 'e', 'r', '/']) (pyStrip url)) = true
    · rw [if_pos h3]
      exact ⟨_, rfl⟩
    rw [if_neg h3, h2]
    simp only [Bool.false_eq_true, if_false]
    exact ⟨_, rfl⟩

/-- Witness for C7: `https://reddit.com/about` (a reddit URL with no
user path) raises, and the bare input `alice` returns without error. -/
theorem extract_username_from_url_error_iff_witness :
    (∃ e, extract_username_from_url (pys "https://reddit.com/about") = .error e) ∧
    (∃ s, extract_username_from_url (pys "alice") = .ok s) :=
  ⟨(extract_username_from_url_error_iff (pys "https://reddit.com/about")).1.mpr (by decide),
   (extract_username_from_url_error_iff (pys "alice")).2 (by decide)⟩

/-! ### Lemmas about _generate_citations -/

theorem citePostStep_others (c : Citations) (p : Post) :
    (citePostStep c p).communication_style = c.communication_style ∧
    (citePostStep c p).personality_traits = c.personality_traits ∧
    (citePostStep c p).behavior_patterns = c.behavior_patterns ∧
    (citePostStep c p).values_beliefs = c.values_beliefs := by
  unfold citePostStep
  split <;> exact ⟨rfl, rfl, rfl, rfl⟩

theorem citeCommentStep_others (c : Citations) (m : Comment) :
    (citeCommentStep c m).interests = c.interests ∧
    (citeCommentStep c m).personality_traits = c.personality_traits ∧
    (citeCommentStep c m).behavior_patterns = c.behavior_patterns ∧
    (citeCommentStep c m).values_beliefs = c.values_beliefs := by
  unfold citeCommentStep
  split <;> exact ⟨rfl, rfl, rfl, rfl⟩

theorem foldl_citePostStep_interests (posts : List Post) (c : Citations) :
    (posts.foldl citePostStep c).interests =
      c.interests ++ (posts.filter (fun p => 10 < p.score)).map postCitation := by
  induction posts generalizing c with
  | nil => simp
  | cons p ps ih =>
    rw [List.foldl_cons, ih (citePostStep c p), List.filter_cons]
    by_cases hp : 10 < p.score
    · simp [citePostStep, hp]
    · simp [citePostStep, hp]

theorem foldl_citePostStep_others (posts : List Post) (c : Citations) :
    (posts.foldl citePostStep c).communication_style = c.communication_style ∧
    (posts.foldl citePostStep c).personality_traits = c.personality_traits ∧
    (posts.foldl citePostStep c).behavior_patterns = c.behavior_patterns ∧
    (posts.foldl citePostStep c).values_beliefs = c.values_beliefs := by
  induction posts generalizing c with
  | nil => exact ⟨rfl, rfl, rfl, rfl⟩
  | cons p ps ih =>
    rw [List.foldl_cons]
    obtain ⟨i1, i2, i3, i4⟩ := ih (citePostStep c p)
    obtain ⟨s1, s2, s3, s4⟩ := citePostStep_others c p
    exact ⟨i1.trans s1, i2.trans s2, i3.trans s3, i4.trans s4⟩

theorem foldl_citeCommentStep_style (comments : List Comment) (c : Citations) :
    (comments.foldl citeCommentStep c).communication_style =
      c.communication_style ++ (comments.filter (fun m => 5 < m.score)).map commentCitation := by
  induction comments generalizing c with
  | nil => simp
  | cons m ms ih =>
    rw [List.foldl_cons, ih (citeCommentStep c m), List.filter_cons]
    by_cases hm : 5 < m.score
    · simp [citeCommentStep, hm]
    · simp [citeCommentStep, hm]

theorem foldl_citeCommentStep_others (comments : List Comment) (c : Citations) :
    (comments.foldl citeCommentStep c).interests = c.interests ∧
    (comments.foldl citeCommentStep c).personality_traits = c.personality_traits ∧
    (comments.foldl citeCommentStep c).behavior_patterns = c.behavior_patterns ∧
    (comments.foldl citeCommentStep c).values_beliefs = c.values_beliefs := by
  induction comments generalizing c with
  | nil => exact ⟨rfl, rfl, rfl, rfl⟩
  | cons m ms ih =>
    rw [List.foldl_cons]
    obtain ⟨i1, i2, i3, i4⟩ := ih (citeCommentStep c m)
    obtain ⟨s1, s2, s3, s4⟩ := citeCommentStep_others c m
    exact ⟨i1.trans s1, i2.trans s2, i3.trans s3, i4.trans s4⟩

theorem generate_citations_spec (posts : List Post) (comments : List Comment) :
    (generate_citations posts comments).interests =
      (posts.filter (fun p => 10 < p.score)).map postCitation ∧
    (generate_citations posts comments).communication_style =
      (comments.filter (fun m => 5 < m.score)).map commentCitation ∧
    (generate_citations posts comments).personality_traits = [] ∧
    (generate_citations posts comments).behavior_patterns = [] ∧
    (generate_citations posts comments).values_beliefs = [] := by
  unfold generate_citations
  obtain ⟨c1, c2, c3, c4⟩ :=
    foldl_citeCommentStep_others comments (posts.foldl citePostStep ⟨[], [], [], [], []⟩)
  obtain ⟨p1, p2, p3, p4⟩ := foldl_citePostStep_others posts ⟨[], [], [], [], []⟩
  refine ⟨?_, ?_, ?_, ?_, ?_⟩
  · rw [c1, foldl_citePostStep_interests]
    simp
  · rw [foldl_citeCommentStep_style, p1]
    simp
  · rw [c2, p2]
  · rw [c3, p3]
  · rw [c4, p4]

/-- C4: for every collected dataset, the citations dict has exactly one
`interests` record per post with score above 10 (truncated title plus
ellipsis — at most 103 characters — fixed host plus permalink, original
score), exactly one `communication_style` record per comment with score
above 5 (built from the body), and the other three category lists are
always empty. -/
theorem generate_citations_shape (posts : List Post) (comments : List Comment) :
    (generate_citations posts comments).interests =
      (posts.filter (fun p => 10 < p.score)).map postCitation ∧
    (generate_citations posts comments).communication_style =
      (comments.filter (fun m => 5 < m.score)).map commentCitation ∧
    (generate_citations posts comments).personality_traits = [] ∧
    (generate_citations posts comments).behavior_patterns = [] ∧
    (generate_citations posts comments).values_beliefs = [] ∧
    (∀ cit ∈ (generate_citations posts comments).interests,
      cit.content.length ≤ 103 ∧
      ∃ p, p ∈ posts ∧ 10 < p.score ∧ cit.content = p.title.take 100 ++ pys "..." ∧
        cit.url = pys "https://reddit.com" ++ p.permalink ∧ cit.score = p.score) ∧
    (∀ cit ∈ (generate_citations posts comments).communication_style,
      cit.content.length ≤ 103 ∧
      ∃ m, m ∈ comments ∧ 5 < m.score ∧ cit.content = m.body.take 100 ++ pys "..." ∧
        cit.url = pys "https://reddit.com" ++ m.permalink ∧ cit.score = m.score) := by
  obtain ⟨h1, h2, h3, h4, h5⟩ := generate_citations_spec posts comments
  refine ⟨h1, h2, h3, h4, h5, ?_, ?_⟩
  · intro cit hc
    rw [h1] at hc
    obtain ⟨p, hp, rfl⟩ := List.mem_map.1 hc
    have hps := List.mem_filter.1 hp
    refine ⟨?_, p, hps.1, by simpa using hps.2, rfl, rfl, rfl⟩
    unfold postCitation
    simp only [List.length_append, List.length_take]
    have : (pys "...").length = 3 := rfl
    rw [this]
    omega
  · intro cit hc
    rw [h2] at hc
    obtain ⟨m, hm, rfl⟩ := List.mem_map.1 hc
    have hms := List.mem_filter.1 hm
    refine ⟨?_, m, hms.1, by simpa using hms.2, rfl, rfl, rfl⟩
    unfold commentCitation
    simp only [List.length_append, List.length_take]
    have : (pys "...").length = 3 := rfl
    rw [this]
    omega

/-- Witness for C4 on the mock dataset of src/test_example.py: the
computed citation lists match the filter-and-map description, the unused
categories are empty, and every excerpt is within 103 characters. -/
theorem generate_citations_shape_witness :
    (generate_citations [mockPost1, mockPost2] [mockComment1, mockComment2]).interests =
      [postCitation mockPost1, postCitation mockPost2] ∧
    (generate_citations [mockPost1, mockPost2] [mockComment1, mockComment2]).personality_traits
      = [] ∧
    ∀ cit ∈ (generate_citations [mockPost1, mockPost2]
        [mockComment1, mockComment2]).interests, cit.content.length ≤ 103 := by
  have h := generate_citations_shape [mockPost1, mockPost2] [mockComment1, mockComment2]
  refine ⟨?_, h.2.2.1, fun cit hc => (h.2.2.2.2.2.1 cit hc).1⟩
  rw [h.1]
  decide

/-- Counterexample for C1: on the mock dataset of src/test_example.py —
exactly the posts scores 127 and 89 and comment scores 15 and 8 named by
the claim — the `interests` list has 2 entries, not 1 (both post scores
exceed the threshold 10), so the claimed `1 post-based citation and 2
comment-based citations` is false. -/
theorem citation_counts_counterexample :
    ¬ ((generate_citations [mockPost1, mockPost2] [mockComment1, mockComment2]).interests.length
        = 1 ∧
      (generate_citations [mockPost1, mockPost2]
        [mockComment1, mockComment2]).communication_style.length = 2) := by
  decide

/-- C1 (amended): for a dataset of exactly 2 posts with scores 127 and 89
and exactly 2 comments with scores 15 and 8, citation extraction yields
exactly 2 post-based citations in `interests` (both scores exceed 10) and
exactly 2 comment-based citations in `communication_style`. -/
theorem citation_counts_mock (p1 p2 : Post) (c1 c2 : Comment)
    (h1 : p1.score = 127) (h2 : p2.score = 89) (h3 : c1.score = 15) (h4 : c2.score = 8) :
    (generate_citations [p1, p2] [c1, c2]).interests.length = 2 ∧
    (generate_citations [p1, p2] [c1, c2]).communication_style.length = 2 := by
  obtain ⟨hi, hc, -, -, -⟩ := generate_citations_spec [p1, p2] [c1, c2]
  constructor
  · rw [hi]
    simp [List.filter_cons, h1, h2]
  · rw [hc]
    simp [List.filter_cons, h3, h4]

/-- Witness for the amended C1 at the concrete mock data. -/
theorem citation_counts_mock_witness :
    (generate_citations [mockPost1, mockPost2] [mockComment1, mockComment2]).interests.length
      = 2 ∧
    (generate_citations [mockPost1, mockPost2]
      [mockComment1, mockComment2]).communication_style.length = 2 :=
  citation_counts_mock mockPost1 mockPost2 mockComment1 mockComment2 rfl rfl rfl rfl

/-! ### Lemmas about the text analyzer -/

/-- C5: the text analyzer never returns more than 20 top words nor more
than 10 top subreddits, for every tokenizer behaviour, stopword list,
input texts, and collected posts and comments. -/
theorem analyzer_top_bounds (word_tokenize : PyStr → Except PyStr (List PyStr))
    (stop_words : List PyStr) (texts : List PyStr)
    (posts : List Post) (comments : List Comment) :
    (extract_topics_and_interests word_tokenize stop_words texts).top_words.length ≤ 20 ∧
    (analyze_user_activity_patterns posts comments).top_subreddits.length ≤ 10 := by
  constructor
  · unfold extract_topics_and_interests topicsBody
    rcases ht : word_tokenize (pyLower (joinSpace texts)) with e | tokens
    · simp
    · dsimp only
      exact List.length_take_le _ _
  · unfold analyze_user_activity_patterns
    dsimp only
    exact List.length_take_le _ _

/-- C6: on empty input (no texts, no posts, no comments) the analyzer
returns zero counts and empty lists and does not fail; the only
assumption is that the external tokenizer returns no tokens on the empty
text. -/
theorem analyzer_empty_input (word_tokenize : PyStr → Except PyStr (List PyStr))
    (stop_words : List PyStr) (h : word_tokenize [] = .ok []) :
    extract_topics_and_interests word_tokenize stop_words [] =
      { top_words := [], total_words := 0, unique_words := 0 } ∧
    analyze_user_activity_patterns [] [] =
      { avg_time_between_posts := 0, top_subreddits := [], total_subreddits := 0,
        post_count := 0, comment_count := 0 } := by
  constructor
  · unfold extract_topics_and_interests topicsBody
    rw [show pyLower (joinSpace []) = [] from rfl, h]
    rfl
  · rfl

/-- Witness for C6 with the tokenizer that returns no tokens on every
input (as NLTK does on the empty string). -/
theorem analyzer_empty_input_witness :
    extract_topics_and_interests (fun _ => .ok []) [] [] =
      { top_words := [], total_words := 0, unique_words := 0 } ∧
    analyze_user_activity_patterns [] [] =
      { avg_time_between_posts := 0, top_subreddits := [], total_subreddits := 0,
        post_count := 0, comment_count := 0 } :=
  analyzer_empty_input (fun _ => .ok []) [] rfl

/-- C10: `extract_topics_and_interests` is total — it either returns the
statistics computed by the `try` body (when the tokenizer succeeds) or
the default result of line 239 (when it raises), never propagating the
exception, so an analysis failure looks exactly like a user with no
analyzable text. -/
theorem extract_topics_total (word_tokenize : PyStr → Except PyStr (List PyStr))
    (stop_words : List PyStr) (texts : List PyStr) :
    (∃ r, topicsBody word_tokenize stop_words texts = .ok r ∧
      extract_topics_and_interests word_tokenize stop_words texts = r) ∨
    ((∃ e, topicsBody word_tokenize stop_words texts = .error e) ∧
      extract_topics_and_interests word_tokenize stop_words texts =
        { top_words := [], total_words := 0, unique_words := 0 }) := by
  unfold extract_topics_and_interests
  rcases h : topicsBody word_tokenize stop_words texts with e | r
  · exact Or.inr ⟨⟨e, rfl⟩, rfl⟩
  · exact Or.inl ⟨r, rfl, rfl⟩

theorem foldl_min_mem : ∀ (t : List Rat) (a : Rat), t.foldl min a ∈ a :: t
  | [], a => by simp
  | c :: t, a => by
    have h := foldl_min_mem t (min a c)
    rw [List.foldl_cons]
    rcases List.mem_cons.1 h with h | h
    · rcases min_choice a c with hm | hm
      · rw [h, hm]
        simp
      · rw [h, hm]
        simp
    · simp [List.mem_cons.2 (Or.inr h)]

theorem foldl_min_le : ∀ (t : List Rat) (a x : Rat), x ∈ a :: t → t.foldl min a ≤ x
  | [], a, x, hx => by
    rw [List.foldl_nil]
    simp at hx
    rw [hx]
  | c :: t, a, x, hx => by
    rw [List.foldl_cons]
    rcases List.mem_cons.1 hx with rfl | hx
    · exact le_trans (foldl_min_le t (min x c) (min x c) (by simp)) (min_le_left x c)
    rcases List.mem_cons.1 hx with rfl | hx
    · exact le_trans (foldl_min_le t (min a x) (min a x) (by simp)) (min_le_right a x)
    · exact foldl_min_le t (min a c) x (by simp [hx])

theorem foldl_max_mem : ∀ (t : List Rat) (a : Rat), t.foldl max a ∈ a :: t
  | [], a => by simp
  | c :: t, a => by
    have h := foldl_max_mem t (max a c)
    rw [List.foldl_cons]
    rcases List.mem_cons.1 h with h | h
    · rcases max_choice a c with hm | hm
      · rw [h, hm]
        simp
      · rw [h, hm]
        simp
    · simp [List.mem_cons.2 (Or.inr h)]

theorem le_foldl_max : ∀ (t : List Rat) (a x : Rat), x ∈ a :: t → x ≤ t.foldl max a
  | [], a, x, hx => by
    rw [List.foldl_nil]
    simp at hx
    rw [hx]
  | c :: t, a, x, hx => by
    rw [List.foldl_cons]
    rcases List.mem_cons.1 hx with rfl | hx
    · exact le_trans (le_max_left x c) (le_foldl_max t (max x c) (max x c) (by simp))
    rcases List.mem_cons.1 hx with rfl | hx
    · exact le_trans (le_max_right a x) (le_foldl_max t (max a x) (max a x) (by simp))
    · exact le_foldl_max t (max a c) x (by simp [hx])

theorem ratMinOfList_spec {l : List Rat} (h : l ≠ []) :
    ratMinOfList l ∈ l ∧ ∀ x ∈ l, ratMinOfList l ≤ x := by
  rcases l with - | ⟨a, t⟩
  · exact absurd rfl h
  · exact ⟨foldl_min_mem t a, fun x hx => foldl_min_le t a x hx⟩

theorem ratMaxOfList_spec {l : List Rat} (h : l ≠ []) :
    ratMaxOfList l ∈ l ∧ ∀ x ∈ l, x ≤ ratMaxOfList l := by
  rcases l with - | ⟨a, t⟩
  · exact absurd rfl h
  · exact ⟨foldl_max_mem t a, fun x hx => le_foldl_max t a x hx⟩

theorem getLastD_mem : ∀ (t : List Rat) (a : Rat), (a :: t).getLastD 0 ∈ a :: t
  | [], a => by simp
  | b :: t, a => by
    rw [List.getLastD_cons, getLastD_irrel (l := b :: t) (by simp) a 0]
    exact List.mem_cons.2 (Or.inr (getLastD_mem t b))

theorem sorted_headD_le {l : List Rat} (hs : l.Sorted (· ≤ ·)) :
    ∀ x ∈ l, l.headD 0 ≤ x := by
  rcases l with - | ⟨a, t⟩
  · intro x hx
    simp at hx
  · intro x hx
    rcases List.mem_cons.1 hx with rfl | hx
    · simp
    · simpa using List.rel_of_sorted_cons hs x hx

theorem sorted_le_getLastD : ∀ {l : List Rat}, l.Sorted (· ≤ ·) → ∀ x ∈ l, x ≤ l.getLastD 0
  | [], _, x, hx => by simp at hx
  | [a], _, x, hx => by
    simp at hx
    simp [hx]
  | a :: b :: t, hs, x, hx => by
    have htail : (b :: t).Sorted (· ≤ ·) := hs.of_cons
    rw [List.getLastD_cons, getLastD_irrel (by simp) a 0]
    rcases List.mem_cons.1 hx with rfl | hx
    · exact le_trans (List.rel_of_sorted_cons hs _ (getLastD_mem t b))
        (le_refl _)
    · exact sorted_le_getLastD htail x hx

theorem sum_consecDiffs : ∀ {l : List Rat}, l ≠ [] → (consecDiffs l).sum = l.getLastD 0 - l.headD 0
  | [], h => absurd rfl h
  | [a], _ => by simp [consecDiffs]
  | a :: b :: t, _ => by
    have hgl : (a :: b :: t).getLastD 0 = (b :: t).getLastD 0 := by
      rw [List.getLastD_cons, getLastD_irrel (l := b :: t) (by simp) a 0]
    rw [show consecDiffs (a :: b :: t) = (b - a) :: consecDiffs (b :: t) from rfl,
      List.sum_cons, sum_consecDiffs (l := b :: t) (by simp), hgl]
    simp only [List.headD_cons]
    ring

theorem length_consecDiffs : ∀ l : List Rat, (consecDiffs l).length = l.length - 1
  | [] => rfl
  | [_] => rfl
  | a :: b :: t => by
    rw [show consecDiffs (a :: b :: t) = (b - a) :: consecDiffs (b :: t) from rfl]
    rw [List.length_cons, length_consecDiffs (b :: t)]
    simp

/-- C8: the average inter-post interval equals the mean of consecutive
sorted-timestamp differences, which telescopes to
`(max - min) / (n - 1)` for `n` posts, and is `0` with fewer than two
posts. -/
theorem avg_time_between_posts_spec (posts : List Post) :
    (posts.length < 2 → avgTimeBetweenPosts posts = 0) ∧
    (2 ≤ posts.length →
      avgTimeBetweenPosts posts =
        (ratMaxOfList (posts.map Post.created_utc) -
          ratMinOfList (posts.map Post.created_utc)) / ((posts.length : Rat) - 1)) := by
  constructor
  · intro h
    rcases posts with - | ⟨p, - | ⟨q, rest⟩⟩
    · rfl
    · rfl
    · simp only [List.length_cons] at h
      omega
  · intro h
    obtain ⟨p, q, rest, rfl⟩ : ∃ p q rest, posts = p :: q :: rest := by
      rcases posts with - | ⟨p, - | ⟨q, rest⟩⟩
      · simp at h
      · simp at h
      · exact ⟨p, q, rest, rfl⟩
    have hperm : List.Perm (pySortRat ((p :: q :: rest).map Post.created_utc))
        ((p :: q :: rest).map Post.created_utc) := List.perm_insertionSort _ _
    have hsorted : (pySortRat ((p :: q :: rest).map Post.created_utc)).Sorted (· ≤ ·) :=
      List.sorted_insertionSort _ _
    have hslen : (pySortRat ((p :: q :: rest).map Post.created_utc)).length =
        rest.length + 2 := by
      rw [hperm.length_eq]
      simp
    have hsne : pySortRat ((p :: q :: rest).map Post.created_utc) ≠ [] := by
      intro he
      rw [he] at hslen
      simp at hslen
    have hdlen : (consecDiffs (pySortRat ((p :: q :: rest).map Post.created_utc))).length =
        rest.length + 1 := by
      rw [length_consecDiffs, hslen]
      omega
    have hdne : consecDiffs (pySortRat ((p :: q :: rest).map Post.created_utc)) ≠ [] := by
      intro he
      rw [he] at hdlen
      simp at hdlen
    have hmapne : (p :: q :: rest).map Post.created_utc ≠ [] := by simp
    have hmin : ratMinOfList ((p :: q :: rest).map Post.created_utc) =
        (pySortRat ((p :: q :: rest).map Post.created_utc)).headD 0 := by
      obtain ⟨hmem, hle⟩ := ratMinOfList_spec hmapne
      have hhmem : (pySortRat ((p :: q :: rest).map Post.created_utc)).headD 0 ∈
          pySortRat ((p :: q :: rest).map Post.created_utc) := by
        rcases he : pySortRat ((p :: q :: rest).map Post.created_utc) with - | ⟨a, t⟩
        · exact absurd he hsne
        · simp
      refine le_antisymm (hle _ (hperm.mem_iff.1 hhmem)) ?_
      exact sorted_headD_le hsorted _ (hperm.mem_iff.2 hmem)
    have hmax : ratMaxOfList ((p :: q :: rest).map Post.created_utc) =
        (pySortRat ((p :: q :: rest).map Post.created_utc)).getLastD 0 := by
      obtain ⟨hmem, hle⟩ := ratMaxOfList_spec hmapne
      have hlmem : (pySortRat ((p :: q :: rest).map Post.created_utc)).getLastD 0 ∈
          pySortRat ((p :: q :: rest).map Post.created_utc) := by
        rcases he : pySortRat ((p :: q :: rest).map Post.created_utc) with - | ⟨a, t⟩
        · exact absurd he hsne
        · exact getLastD_mem t a
      refine le_antisymm ?_ (hle _ (hperm.mem_iff.1 hlmem))
      exact sorted_le_getLastD hsorted _ (hperm.mem_iff.2 hmem)
    unfold avgTimeBetweenPosts
    rw [if_pos (by simp), if_pos hdne, sum_consecDiffs hsne, hdlen, hmin, hmax]
    have hcast : ((rest.length + 1 : Nat) : Rat) = ((p :: q :: rest).length : Rat) - 1 := by
      push_cast
      simp
    rw [hcast]

/-- Witness for C8: on the two mock posts the average is
`(max - min) / 1`, and on a single post it is `0`. -/
theorem avg_time_between_posts_spec_witness :
    avgTimeBetweenPosts [mockPost1, mockPost2] =
      (ratMaxOfList ([mockPost1, mockPost2].map Post.created_utc) -
        ratMinOfList ([mockPost1, mockPost2].map Post.created_utc)) /
        (([mockPost1, mockPost2].length : Rat) - 1) ∧
    avgTimeBetweenPosts [mockPost1] = 0 :=
  ⟨(avg_time_between_posts_spec [mockPost1, mockPost2]).2 (by decide),
   (avg_time_between_posts_spec [mockPost1]).1 (by decide)⟩

/-! ### Lemmas about the Gemini retry loop -/

theorem gw_first_ok {call : Nat → Except PyStr PyStr} {t : PyStr}
    (h0 : call 0 = .ok t) (ht : t ≠ []) :
    generateWithRetry call = ⟨.ok t, 1, 0⟩ := by
  unfold generateWithRetry geminiRetry
  simp [geminiRetryFuel, h0, ht]

theorem gw_second_ok {call : Nat → Except PyStr PyStr} {t : PyStr}
    (h0 : call 0 = .ok [] ∨ ∃ e, call 0 = .error e) (h1 : call 1 = .ok t) (ht : t ≠ []) :
    generateWithRetry call = ⟨.ok t, 2, 2⟩ := by
  unfold generateWithRetry geminiRetry
  rcases h0 with h0 | ⟨e, h0⟩ <;> simp [geminiRetryFuel, h0, h1, ht]

theorem gw_third {call : Nat → Except PyStr PyStr}
    (h0 : call 0 = .ok [] ∨ ∃ e, call 0 = .error e)
    (h1 : call 1 = .ok [] ∨ ∃ e, call 1 = .error e) :
    generateWithRetry call =
      ⟨match call 2 with
        | .ok t =>
          if t ≠ [] then .ok t
          else .error (pys "Gemini returned empty response after all retries")
        | .error e => .error e, 3, 4⟩ := by
  unfold generateWithRetry geminiRetry
  rcases h0 with h0 | ⟨e0, h0⟩ <;> rcases h1 with h1 | ⟨e1, h1⟩ <;>
    rcases h2 : call 2 with e2 | t2 <;>
    simp_all [geminiRetryFuel] <;>
    (by_cases ht2 : t2 = [] <;> simp [ht2])

/-- C3: the LLM retry loop makes at most 3 `generate_content` calls with a
2-second sleep between consecutive attempts (total sleep `2 * (calls - 1)`
seconds); if every attempt yields an empty response or an error it makes
exactly 3 calls and raises after the 3rd (the empty-response `ValueError`
or the underlying error of the last attempt); and a success with
non-empty text short-circuits: success on attempt 2 means exactly 2
calls, success on attempt 1 exactly one. -/
theorem gemini_retry_spec (call : Nat → Except PyStr PyStr) :
    (generateWithRetry call).calls ≤ 3 ∧
    (generateWithRetry call).sleepSeconds = 2 * ((generateWithRetry call).calls - 1) ∧
    ((∀ i, i < 3 → call i = .ok [] ∨ ∃ e, call i = .error e) →
      (generateWithRetry call).calls = 3 ∧
      (call 2 = .ok [] → (generateWithRetry call).result =
        .error (pys "Gemini returned empty response after all retries")) ∧
      (∀ e, call 2 = .error e → (generateWithRetry call).result = .error e)) ∧
    (∀ t, (call 0 = .ok [] ∨ ∃ e, call 0 = .error e) → call 1 = .ok t → t ≠ [] →
      (generateWithRetry call).result = .ok t ∧ (generateWithRetry call).calls = 2) ∧
    (∀ t, call 0 = .ok t → t ≠ [] →
      (generateWithRetry call).result = .ok t ∧ (generateWithRetry call).calls = 1) := by
  have hbound : (generateWithRetry call).calls ≤ 3 ∧
      (generateWithRetry call).sleepSeconds = 2 * ((generateWithRetry call).calls - 1) := by
    rcases h0 : call 0 with e0 | t0
    · rcases h1 : call 1 with e1 | t1
      · rw [gw_third (Or.inr ⟨e0, h0⟩) (Or.inr ⟨e1, h1⟩)]
        exact ⟨by norm_num, by norm_num⟩
      · by_cases ht1 : t1 = []
        · subst ht1
          rw [gw_third (Or.inr ⟨e0, h0⟩) (Or.inl h1)]
          exact ⟨by norm_num, by norm_num⟩
        · rw [gw_second_ok (Or.inr ⟨e0, h0⟩) h1 ht1]
          exact ⟨by norm_num, by norm_num⟩
    · by_cases ht0 : t0 = []
      · subst ht0
        rcases h1 : call 1 with e1 | t1
        · rw [gw_third (Or.inl h0) (Or.inr ⟨e1, h1⟩)]
          exact ⟨by norm_num, by norm_num⟩
        · by_cases ht1 : t1 = []
          · subst ht1
            rw [gw_third (Or.inl h0) (Or.inl h1)]
            exact ⟨by norm_num, by norm_num⟩
          · rw [gw_second_ok (Or.inl h0) h1 ht1]
            exact ⟨by norm_num, by norm_num⟩
      · rw [gw_first_ok h0 ht0]
        exact ⟨by norm_num, by norm_num⟩
  refine ⟨hbound.1, hbound.2, ?_, ?_, ?_⟩
  · intro hall
    have hf0 := hall 0 (by norm_num)
    have hf1 := hall 1 (by norm_num)
    rw [gw_third hf0 hf1]
    refine ⟨rfl, ?_, ?_⟩
    · intro h2
      rw [h2]
      simp
    · intro e h2
      rw [h2]
  · intro t hf0 h1 ht
    rw [gw_second_ok hf0 h1 ht]
    exact ⟨rfl, rfl⟩
  · intro t h0 ht
    rw [gw_first_ok h0 ht]
    exact ⟨rfl, rfl⟩

/-- Witness for C3: with every response empty the loop makes 3 calls and
surfaces the empty-response error; with an error on attempt 1 and a
successful attempt 2 the loop stops at exactly 2 calls. -/
theorem gemini_retry_spec_witness :
    (generateWithRetry (fun _ => .ok [])).result =
      .error (pys "Gemini returned empty response after all retries") ∧
    (generateWithRetry (fun _ => .ok [])).calls = 3 ∧
    (generateWithRetry
        (fun i => if i = 0 then .error (pys "boom") else .ok (pys "persona"))).result =
      .ok (pys "persona") ∧
    (generateWithRetry
        (fun i => if i = 0 then .error (pys "boom") else .ok (pys "persona"))).calls = 2 := by
  have h1 := (gemini_retry_spec (fun _ => .ok [])).2.2.1 (fun i _ => Or.inl rfl)
  have h2 := (gemini_retry_spec
      (fun i => if i = 0 then .error (pys "boom") else .ok (pys "persona"))).2.2.2.1
    (pys "persona") (Or.inr ⟨pys "boom", rfl⟩) rfl (by decide)
  exact ⟨h1.2.1 rfl, h1.1, h2.1, h2.2⟩
